import Mathlib

/-!
# Verification of the vocab-deck reconciliation engine

Shallow embedding of `build_vocab_deck.js` (the reconciliation /
identifier-provisioning engine) and of its validation layer, together with
proofs about the claims of the specification.

Modelling conventions:
* The external card provisioner (`createVocabCard`, a POST to the Mochi API)
  is modelled by an oracle `prov : Nat → String` mapping the index of the
  creation call (the value of the `created` counter at call time) to the
  identifier returned by the external service.  Deck resolution
  (`findDeckByName` / `createDeck`) only produces the opaque deck id passed to
  the provisioner, so it is absorbed into the oracle.
* The locale-aware comparator `a.chunk.localeCompare(b.chunk, "en")` of the
  final sort is modelled by a comparator parameter
  `le : String → String → Bool` (`le a b` stands for `localeCompare ≤ 0`).
* `DRY_RUN` is modelled as disabled (the real-provisioning path).
* File persistence (`saveJsonAtomic`) is modelled by a trace `saves` of
  snapshots `(class entries, library entries)`, most recent first.
* A thrown `Error` is modelled by `Except.error`; the state carried inside a
  conflict error records the durable world at the moment of the abort (the
  files hold the head of its `saves` trace).
-/

/-- One entry of the class document or of the library
(`{chunk, id, variants, meaning?, obs?}`).  The spec's data model fixes
`variants` to be strings. -/
structure Entry where
  chunk : String
  id : String
  variants : List String
  meaning : Option String
  obs : Option String
deriving Repr, DecidableEq

/-- JS `String.prototype.trim()`: strip leading and trailing whitespace.
Modelled structurally over the character list (for ASCII whitespace, the case
the documents exercise) so that it evaluates on concrete inputs. -/
def trimStr (s : String) : String :=
  ⟨((s.data.dropWhile Char.isWhitespace).reverse.dropWhile Char.isWhitespace).reverse⟩

/-- First-occurrence deduplication, the semantics of
`Array.from(new Set(list))`: `seen` accumulates the values already emitted. -/
def dedupFirstAux (seen : List String) : List String → List String
  | [] => []
  | x :: xs =>
    if seen.contains x then dedupFirstAux seen xs
    else x :: dedupFirstAux (x :: seen) xs

/-- `union(arrA, arrB)` from the source:
`Array.from(new Set([...arrA, ...arrB].filter(Boolean)))`.
For strings, `Boolean` is falsy exactly on `""`. -/
def union (arrA arrB : List String) : List String :=
  dedupFirstAux [] ((arrA ++ arrB).filter (fun s => !(s == "")))

/-- `libMap.get(c)` where `libMap = indexByChunk(lib.entries)`: the `Map` is
keyed by the raw (untrimmed) `chunk`; with pairwise-distinct chunks it agrees
with a first-match scan of the entries array. -/
def lookupChunk (lib : List Entry) (c : String) : Option Entry :=
  lib.find? (fun l => l.chunk == c)

/-- In-place mutation of the object returned by `libMap.get`: rewrite the
first entry satisfying `p` (the one `find?` returns), keep the rest. -/
def updateFirst (p : Entry → Bool) (f : Entry → Entry) : List Entry → List Entry
  | [] => []
  | l :: rest => if p l then f l :: rest else l :: updateFirst p f rest

/-- Lines 247-248: `if (entry.meaning != null) libEntry.meaning = entry.meaning;`
and likewise for `obs`. -/
def applyMeaningObs (e : Entry) (l : Entry) : Entry :=
  let l1 := match e.meaning with
    | some m => { l with meaning := some m }
    | none => l
  match e.obs with
  | some o => { l1 with obs := some o }
  | none => l1

/-- Lines 243-248: the cache-miss mutation of the library entry: store the
returned card id, union the unit's variants in, then refresh meaning/obs. -/
def refreshEntry (cardId : String) (e : Entry) (l : Entry) : Entry :=
  applyMeaningObs e { l with id := cardId, variants := union l.variants e.variants }

/-- The fresh library entry of line 242: `{ chunk: entry.chunk, id: "", variants: [] }`. -/
def freshLibEntry (c : String) : Entry :=
  { chunk := c, id := "", variants := [], meaning := none, obs := none }

/-- Engine state during the loop of `main` (lines 218-263).
`docDone` is the processed (mutated) prefix of `classDoc.entries`;
`saves` is the persistence trace, most recent snapshot first. -/
structure EngState where
  docDone : List Entry
  lib : List Entry
  skipped : List String
  created : Nat
  saves : List (List Entry × List Entry)
deriving Repr, DecidableEq

/-- The conflict error of line 226, carrying the chunk, the class-side id and
the library-side id; `state` is the engine state at the abort (its `saves`
head is the durable content of the two files). -/
structure ConflictError where
  chunk : String
  classId : String
  libraryId : String
  state : EngState
deriving Repr, DecidableEq

/-- One iteration of the loop (lines 221-263) on unit `e`; `todo` is the not
yet processed suffix of the class document (persisted untouched inside each
snapshot). -/
def stepUnit (prov : Nat → String) (e : Entry) (todo : List Entry)
    (st : EngState) : Except ConflictError EngState :=
  match lookupChunk st.lib e.chunk with
  | some inLib =>
    -- line 225: `inLib && inLib.id && entry.id && entry.id.trim() && entry.id !== inLib.id`
    if inLib.id ≠ "" ∧ e.id ≠ "" ∧ trimStr e.id ≠ "" ∧ e.id ≠ inLib.id then
      .error ⟨e.chunk, e.id, inLib.id, st⟩
    -- line 230: `inLib && inLib.id && inLib.id.trim()`
    else if inLib.id ≠ "" ∧ trimStr inLib.id ≠ "" then
      .ok { st with
        docDone := st.docDone ++ [{ e with id := inLib.id }],
        lib := updateFirst (fun l => l.chunk == e.chunk)
          (fun l => { l with variants := union l.variants e.variants }) st.lib,
        skipped := st.skipped ++ [e.chunk] }
    else
      -- cache miss on an existing (id-less) library entry
      let cardId := prov st.created
      let e1 := { e with id := cardId }
      let lib1 := updateFirst (fun l => l.chunk == e.chunk)
        (refreshEntry cardId e) st.lib
      .ok { st with
        docDone := st.docDone ++ [e1],
        lib := lib1,
        created := st.created + 1,
        saves := (st.docDone ++ e1 :: todo, lib1) :: st.saves }
  | none =>
    -- cache miss with no library entry: build one and push it (lines 242-253)
    let cardId := prov st.created
    let e1 := { e with id := cardId }
    let lib1 := st.lib ++ [refreshEntry cardId e (freshLibEntry e.chunk)]
    .ok { st with
      docDone := st.docDone ++ [e1],
      lib := lib1,
      created := st.created + 1,
      saves := (st.docDone ++ e1 :: todo, lib1) :: st.saves }

/-- The loop of lines 221-263, strictly in document order; the first conflict
aborts the whole run. -/
def processEntries (prov : Nat → String) :
    List Entry → EngState → Except ConflictError EngState
  | [], st => .ok st
  | e :: todo, st =>
    match stepUnit prov e todo st with
    | .error c => .error c
    | .ok st1 => processEntries prov todo st1

/-- The engine state at the top of the loop: nothing processed, library as
loaded, empty skip list, zero creations, nothing persisted yet this run. -/
def initState (lib0 : List Entry) : EngState :=
  ⟨[], lib0, [], 0, []⟩

/-- `main`'s reconciliation run (lines 218-271): process every unit, then sort
the library by chunk under the comparator and persist both stores once more. -/
def runEngine (prov : Nat → String) (le : String → String → Bool)
    (docEntries : List Entry) (lib0 : List Entry) : Except ConflictError EngState :=
  match processEntries prov docEntries (initState lib0) with
  | .error c => .error c
  | .ok st =>
    let sorted := st.lib.mergeSort (fun a b => le a.chunk b.chunk)
    .ok { st with lib := sorted, saves := (st.docDone, sorted) :: st.saves }

/-! ## Laws of `union` and first-occurrence deduplication -/

theorem mem_dedupFirstAux (l : List String) (seen : List String) (x : String) :
    x ∈ dedupFirstAux seen l ↔ x ∈ l ∧ x ∉ seen := by
  induction l generalizing seen with
  | nil => simp [dedupFirstAux]
  | cons y ys ih =>
    by_cases hy : y ∈ seen
    · have hc : seen.contains y = true := by
        simpa [List.contains] using hy
      simp only [dedupFirstAux, hc, if_pos]
      rw [ih]
      constructor
      · rintro ⟨hx, hs⟩
        exact ⟨List.mem_cons_of_mem _ hx, hs⟩
      · rintro ⟨hx, hs⟩
        rcases List.mem_cons.mp hx with rfl | hx
        · exact absurd hy hs
        · exact ⟨hx, hs⟩
    · have hc : seen.contains y = false := by
        simpa [List.contains] using hy
      simp only [dedupFirstAux, hc, if_neg, Bool.false_eq_true, not_false_iff]
      rw [List.mem_cons, ih]
      constructor
      · rintro (rfl | ⟨hx, hs⟩)
        · exact ⟨List.mem_cons_self _ _, hy⟩
        · refine ⟨List.mem_cons_of_mem _ hx, fun h => hs (List.mem_cons_of_mem _ h)⟩
      · rintro ⟨hx, hs⟩
        by_cases hxy : x = y
        · exact Or.inl hxy
        · have hx1 : x ∈ ys := by
            rcases List.mem_cons.mp hx with h | h
            · exact absurd h hxy
            · exact h
          refine Or.inr ⟨hx1, fun h => ?_⟩
          rcases List.mem_cons.mp h with h | h
          · exact hxy h
          · exact hs h

theorem nodup_dedupFirstAux (l : List String) (seen : List String) :
    (dedupFirstAux seen l).Nodup := by
  induction l generalizing seen with
  | nil => simp [dedupFirstAux]
  | cons y ys ih =>
    by_cases hy : y ∈ seen
    · have hc : seen.contains y = true := by simpa [List.contains] using hy
      simpa only [dedupFirstAux, hc, if_pos] using ih seen
    · have hc : seen.contains y = false := by simpa [List.contains] using hy
      simp only [dedupFirstAux, hc, Bool.false_eq_true, if_neg, not_false_iff]
      refine List.Nodup.cons (fun h => ?_) (ih (y :: seen))
      exact ((mem_dedupFirstAux _ _ _).mp h).2 (List.mem_cons_self _ _)

theorem dedupFirstAux_congr {s1 s2 : List String} (l : List String)
    (h : ∀ x, x ∈ s1 ↔ x ∈ s2) :
    dedupFirstAux s1 l = dedupFirstAux s2 l := by
  induction l generalizing s1 s2 with
  | nil => rfl
  | cons y ys ih =>
    by_cases hy : y ∈ s1
    · have h1 : s1.contains y = true := by simpa [List.contains] using hy
      have h2 : s2.contains y = true := by simpa [List.contains] using (h y).mp hy
      simp only [dedupFirstAux, h1, h2, if_pos]
      exact ih h
    · have h1 : s1.contains y = false := by simpa [List.contains] using hy
      have h2 : s2.contains y = false := by
        simpa [List.contains] using fun hx => hy ((h y).mpr hx)
      simp only [dedupFirstAux, h1, h2, Bool.false_eq_true, if_neg, not_false_iff]
      refine congrArg (y :: ·) (ih ?_)
      intro x
      simp only [List.mem_cons]
      exact or_congr Iff.rfl (h x)

theorem dedupFirstAux_append (l1 l2 seen : List String) :
    dedupFirstAux seen (l1 ++ l2)
      = dedupFirstAux seen l1 ++ dedupFirstAux (l1 ++ seen) l2 := by
  induction l1 generalizing seen with
  | nil => simp [dedupFirstAux]
  | cons y ys ih =>
    by_cases hy : y ∈ seen
    · have hc : seen.contains y = true := by simpa [List.contains] using hy
      simp only [List.cons_append, List.append_eq, dedupFirstAux, hc, if_pos]
      rw [ih]
      refine congrArg _ (dedupFirstAux_congr l2 fun x => ?_)
      simp only [List.mem_cons, List.mem_append]
      constructor
      · rintro (hx | hx)
        · exact Or.inr (Or.inl hx)
        · exact Or.inr (Or.inr hx)
      · rintro (rfl | hx | hx)
        · exact Or.inr hy
        · exact Or.inl hx
        · exact Or.inr hx
    · have hc : seen.contains y = false := by simpa [List.contains] using hy
      simp only [List.cons_append, List.append_eq, dedupFirstAux, hc,
        Bool.false_eq_true, if_neg, not_false_iff]
      rw [ih]
      refine congrArg (y :: ·) (congrArg _ (dedupFirstAux_congr l2 fun x => ?_))
      simp only [List.mem_cons, List.mem_append]
      tauto

theorem dedupFirstAux_eq_nil (l seen : List String) (h : ∀ x ∈ l, x ∈ seen) :
    dedupFirstAux seen l = [] := by
  induction l generalizing seen with
  | nil => rfl
  | cons y ys ih =>
    have hc : seen.contains y = true := by
      simpa [List.contains] using h y (List.mem_cons_self _ _)
    simp only [dedupFirstAux, hc, if_pos]
    exact ih seen fun x hx => h x (List.mem_cons_of_mem _ hx)

theorem dedupFirstAux_eq_self (l seen : List String) (hnd : l.Nodup)
    (h : ∀ x ∈ l, x ∉ seen) :
    dedupFirstAux seen l = l := by
  induction l generalizing seen with
  | nil => rfl
  | cons y ys ih =>
    have hc : seen.contains y = false := by
      simpa [List.contains] using h y (List.mem_cons_self _ _)
    simp only [dedupFirstAux, hc, Bool.false_eq_true, if_neg, not_false_iff]
    refine congrArg (y :: ·)
      (ih (y :: seen) (List.Nodup.of_cons hnd) fun x hx hmem => ?_)
    rcases List.mem_cons.mp hmem with rfl | hmem
    · exact (List.nodup_cons.mp hnd).1 hx
    · exact h x (List.mem_cons_of_mem _ hx) hmem

theorem mem_union (a b : List String) (x : String) :
    x ∈ union a b ↔ (x ∈ a ∨ x ∈ b) ∧ x ≠ "" := by
  unfold union
  rw [mem_dedupFirstAux]
  simp only [List.mem_filter, List.mem_append, List.not_mem_nil, not_false_iff,
    and_true, Bool.not_eq_eq_eq_not, Bool.not_true, beq_eq_false_iff_ne, ne_eq]

theorem mem_union_ne_empty {a b : List String} {x : String} (h : x ∈ union a b) :
    x ≠ "" :=
  ((mem_union a b x).mp h).2

theorem nodup_union (a b : List String) : (union a b).Nodup :=
  nodup_dedupFirstAux _ _

theorem union_self_of_union (a b : List String) :
    union (union a b) (union a b) = union a b := by
  have hne : ∀ x ∈ union a b, (!(x == "")) = true := by
    intro x hx
    simpa using mem_union_ne_empty hx
  have hfilter : (union a b ++ union a b).filter (fun s => !(s == ""))
      = union a b ++ union a b := by
    rw [List.filter_eq_self]
    intro x hx
    exact hne x (by simpa using (List.mem_append.mp hx).elim id id)
  show dedupFirstAux [] ((union a b ++ union a b).filter (fun s => !(s == "")))
      = union a b
  rw [hfilter, dedupFirstAux_append,
    dedupFirstAux_eq_self _ _ (nodup_union a b) (by simp),
    dedupFirstAux_eq_nil _ _ (fun x hx => by simpa using hx)]
  simp

/-- C8: `union` is commutative and idempotent when its results are read as
sets, and `union([], l)` is `l` with falsy (empty-string) members filtered
out and duplicates removed (first occurrence kept). -/
theorem union_laws_C8 :
    (∀ (a b : List String) (x : String), x ∈ union a b ↔ x ∈ union b a)
      ∧ (∀ a b : List String, union (union a b) (union a b) = union a b)
      ∧ (∀ l : List String,
          union [] l = dedupFirstAux [] (l.filter (fun s => !(s == "")))) := by
  refine ⟨fun a b x => ?_, union_self_of_union, fun l => rfl⟩
  rw [mem_union, mem_union, or_comm]

/-! ## The four branches of a loop iteration -/

theorem trimStr_empty : trimStr "" = "" := rfl

theorem ne_empty_of_trimStr_ne {s : String} (h : trimStr s ≠ "") : s ≠ "" :=
  fun hs => h (by rw [hs]; rfl)

theorem stepUnit_conflict (prov : Nat → String) (e : Entry) (todo : List Entry)
    (st : EngState) (inLib : Entry)
    (hfind : lookupChunk st.lib e.chunk = some inLib)
    (h1 : inLib.id ≠ "") (h2 : e.id ≠ "") (h3 : trimStr e.id ≠ "")
    (h4 : e.id ≠ inLib.id) :
    stepUnit prov e todo st = .error ⟨e.chunk, e.id, inLib.id, st⟩ := by
  simp only [stepUnit, hfind]
  rw [if_pos ⟨h1, h2, h3, h4⟩]

theorem stepUnit_hit (prov : Nat → String) (e : Entry) (todo : List Entry)
    (st : EngState) (inLib : Entry)
    (hfind : lookupChunk st.lib e.chunk = some inLib)
    (htrim : trimStr inLib.id ≠ "")
    (hnc : ¬(e.id ≠ "" ∧ trimStr e.id ≠ "" ∧ e.id ≠ inLib.id)) :
    stepUnit prov e todo st = .ok { st with
      docDone := st.docDone ++ [{ e with id := inLib.id }],
      lib := updateFirst (fun l => l.chunk == e.chunk)
        (fun l => { l with variants := union l.variants e.variants }) st.lib,
      skipped := st.skipped ++ [e.chunk] } := by
  simp only [stepUnit, hfind]
  rw [if_neg (fun hcon => hnc ⟨hcon.2.1, hcon.2.2.1, hcon.2.2.2⟩),
    if_pos ⟨ne_empty_of_trimStr_ne htrim, htrim⟩]

theorem stepUnit_miss_none (prov : Nat → String) (e : Entry) (todo : List Entry)
    (st : EngState)
    (hfind : lookupChunk st.lib e.chunk = none) :
    stepUnit prov e todo st = .ok { st with
      docDone := st.docDone ++ [{ e with id := prov st.created }],
      lib := st.lib ++ [refreshEntry (prov st.created) e (freshLibEntry e.chunk)],
      created := st.created + 1,
      saves := (st.docDone ++ { e with id := prov st.created } :: todo,
        st.lib ++ [refreshEntry (prov st.created) e (freshLibEntry e.chunk)])
          :: st.saves } := by
  simp only [stepUnit, hfind]

theorem stepUnit_miss_some (prov : Nat → String) (e : Entry) (todo : List Entry)
    (st : EngState) (inLib : Entry)
    (hfind : lookupChunk st.lib e.chunk = some inLib)
    (htrim : trimStr inLib.id = "")
    (hnc : ¬(inLib.id ≠ "" ∧ e.id ≠ "" ∧ trimStr e.id ≠ "" ∧ e.id ≠ inLib.id)) :
    stepUnit prov e todo st = .ok { st with
      docDone := st.docDone ++ [{ e with id := prov st.created }],
      lib := updateFirst (fun l => l.chunk == e.chunk)
        (refreshEntry (prov st.created) e) st.lib,
      created := st.created + 1,
      saves := (st.docDone ++ { e with id := prov st.created } :: todo,
        updateFirst (fun l => l.chunk == e.chunk)
          (refreshEntry (prov st.created) e) st.lib) :: st.saves } := by
  simp only [stepUnit, hfind]
  rw [if_neg hnc, if_neg (fun h => h.2 htrim)]

/-! ## C1: conflict handling -/

/-- C1, counterexample to the claim as stated: the unit for chunk `"k"`
carries the non-empty id `" "` which differs from the registry's `"Y999"`,
yet the run does not fail: the whitespace-only id fails the code's
`entry.id.trim()` truthiness test at line 225, so the unit is processed as a
cache hit (no creation, chunk skipped, id backfilled to `"Y999"`). -/
theorem conflict_abort_C1_counterexample :
    (runEngine (fun _ => "Z1") (fun _ _ => true)
        [⟨"k", " ", [], none, none⟩] [⟨"k", "Y999", [], none, none⟩]).toOption.map
        (fun st => (st.created, st.skipped, st.docDone.map Entry.id))
      = some (0, ["k"], ["Y999"])
      ∧ (" " : String) ≠ "" ∧ (" " : String) ≠ "Y999" := by
  refine ⟨?_, by decide, by decide⟩
  simp +decide [runEngine, processEntries, stepUnit, lookupChunk, initState,
    List.mergeSort, union, dedupFirstAux, updateFirst]

/-- C1 (amended): if the registry has a non-empty `id` for the unit's chunk
and the unit carries an id that is non-empty, non-blank after trimming, and
different from the registry's, the run fails immediately with a conflict
error naming the chunk and the two ids: the error state is exactly the state
`st` reached after the earlier units, so no provisioner call is made for this
unit (`created` unchanged), no further units are processed (the result does
not depend on `post`), and all mutations and persisted snapshots committed
for earlier units remain in place (`lib`, `saves` unchanged). -/
theorem conflict_abort_C1 (prov : Nat → String) (e : Entry) (post : List Entry)
    (st : EngState) (inLib : Entry)
    (hfind : lookupChunk st.lib e.chunk = some inLib)
    (hlib : inLib.id ≠ "") (hid : e.id ≠ "") (htrim : trimStr e.id ≠ "")
    (hne : e.id ≠ inLib.id) :
    processEntries prov (e :: post) st = .error ⟨e.chunk, e.id, inLib.id, st⟩ := by
  simp only [processEntries,
    stepUnit_conflict prov e post st inLib hfind hlib hid htrim hne]

theorem conflict_abort_C1_witness :
    processEntries (fun _ => "N") [⟨"casa", "X123", [], none, none⟩]
        (initState [⟨"casa", "Y999", [], none, none⟩])
      = .error ⟨"casa", "X123", "Y999",
          initState [⟨"casa", "Y999", [], none, none⟩]⟩ :=
  conflict_abort_C1 (fun _ => "N") ⟨"casa", "X123", [], none, none⟩ []
    (initState [⟨"casa", "Y999", [], none, none⟩])
    ⟨"casa", "Y999", [], none, none⟩ rfl (by decide) (by decide) (by decide)
    (by decide)

/-! ## C3: cache hit -/

/-- C3, counterexample to the claim as stated: the registry entry for chunk
`"w"` has the non-empty id `" "` and there is no identifier conflict, yet the
engine does not take the cache-hit path: line 230 tests `inLib.id.trim()`,
which is falsy for `" "`, so an external creation call is made
(`created = 1`), nothing is recorded as skipped, and the unit's id becomes
the provisioned `"FRESH"` instead of the registry's `" "`. -/
theorem cache_hit_C3_counterexample :
    (runEngine (fun _ => "FRESH") (fun _ _ => true)
        [⟨"w", "", ["x"], none, none⟩] [⟨"w", " ", ["a"], none, none⟩]).toOption.map
        (fun st => (st.created, st.skipped, st.docDone.map Entry.id))
      = some (1, [], ["FRESH"])
      ∧ (" " : String) ≠ "" := by
  refine ⟨?_, by decide⟩
  simp +decide [runEngine, processEntries, stepUnit, lookupChunk, initState,
    List.mergeSort, union, dedupFirstAux, updateFirst, refreshEntry,
    applyMeaningObs, freshLibEntry]

/-- C3 (amended): for a unit whose chunk has a registry entry whose id is
non-empty after trimming (and no identifier conflict), the engine backfills
the unit's id from the registry entry, replaces the registry entry's variants
with the union of its variants and the unit's variants, appends the chunk to
the skipped list, and makes no external call for that unit (`created` and the
persistence trace are unchanged). -/
theorem cache_hit_C3 (prov : Nat → String) (e : Entry) (todo : List Entry)
    (st : EngState) (inLib : Entry)
    (hfind : lookupChunk st.lib e.chunk = some inLib)
    (htrim : trimStr inLib.id ≠ "")
    (hnc : ¬(e.id ≠ "" ∧ trimStr e.id ≠ "" ∧ e.id ≠ inLib.id)) :
    ∃ st1, stepUnit prov e todo st = .ok st1
      ∧ st1.docDone = st.docDone ++ [{ e with id := inLib.id }]
      ∧ st1.lib = updateFirst (fun l => l.chunk == e.chunk)
          (fun l => { l with variants := union l.variants e.variants }) st.lib
      ∧ st1.skipped = st.skipped ++ [e.chunk]
      ∧ st1.created = st.created
      ∧ st1.saves = st.saves :=
  ⟨_, stepUnit_hit prov e todo st inLib hfind htrim hnc, rfl, rfl, rfl, rfl, rfl⟩

theorem cache_hit_C3_witness :
    ∃ st1, stepUnit (fun _ => "P") ⟨"casa", "", ["x"], none, none⟩ []
        (initState [⟨"casa", "Y1", ["a"], none, none⟩]) = .ok st1
      ∧ st1.docDone.map Entry.id = ["Y1"]
      ∧ st1.skipped = ["casa"]
      ∧ st1.created = 0
      ∧ st1.saves = [] := by
  obtain ⟨st1, h1, h2, h3, h4, h5, h6⟩ :=
    cache_hit_C3 (fun _ => "P") ⟨"casa", "", ["x"], none, none⟩ []
      (initState [⟨"casa", "Y1", ["a"], none, none⟩])
      ⟨"casa", "Y1", ["a"], none, none⟩ rfl (by decide) (by decide)
  refine ⟨st1, h1, ?_, ?_, ?_, ?_⟩
  · rw [h2]; rfl
  · rw [h4]; rfl
  · rw [h5]; rfl
  · rw [h6]; rfl

/-! ## C4: cache miss -/

/-- C4: for a unit whose chunk has no registry entry with a non-empty id,
the engine invokes the provisioner (`prov` at the current `created` index)
and assigns the returned identifier to the unit's id; if no registry entry
existed, one is created from `freshLibEntry` (empty variants) and appended,
with the unit's variants unioned in (`refreshEntry`); if an id-less entry
existed it is rewritten through `refreshEntry` in place; the created counter
is incremented; and both the class document and the registry are persisted
(one new snapshot holding exactly the post-mutation states). -/
theorem cache_miss_C4 (prov : Nat → String) (e : Entry) (todo : List Entry)
    (st : EngState)
    (h : lookupChunk st.lib e.chunk = none
        ∨ ∃ inLib, lookupChunk st.lib e.chunk = some inLib ∧ inLib.id = "") :
    ∃ st1, stepUnit prov e todo st = .ok st1
      ∧ st1.docDone = st.docDone ++ [{ e with id := prov st.created }]
      ∧ st1.created = st.created + 1
      ∧ st1.saves = (st1.docDone ++ todo, st1.lib) :: st.saves
      ∧ (lookupChunk st.lib e.chunk = none →
          st1.lib = st.lib
            ++ [refreshEntry (prov st.created) e (freshLibEntry e.chunk)])
      ∧ (∀ inLib, lookupChunk st.lib e.chunk = some inLib →
          st1.lib = updateFirst (fun l => l.chunk == e.chunk)
            (refreshEntry (prov st.created) e) st.lib) := by
  rcases h with hnone | ⟨inLib, hsome, hid0⟩
  · refine ⟨_, stepUnit_miss_none prov e todo st hnone, rfl, rfl, ?_, ?_, ?_⟩
    · simp
    · intro _
      rfl
    · intro inLib hsome
      rw [hnone] at hsome
      exact absurd hsome (by simp)
  · have htrim : trimStr inLib.id = "" := by rw [hid0]; rfl
    have hnc : ¬(inLib.id ≠ "" ∧ e.id ≠ "" ∧ trimStr e.id ≠ "" ∧ e.id ≠ inLib.id) :=
      fun hc => hc.1 hid0
    refine ⟨_, stepUnit_miss_some prov e todo st inLib hsome htrim hnc,
      rfl, rfl, ?_, ?_, ?_⟩
    · simp
    · intro hnone
      rw [hnone] at hsome
      exact absurd hsome (by simp)
    · intro inLib2 hsome2
      rfl

theorem cache_miss_C4_witness :
    ∃ st1, stepUnit (fun _ => "NEW") ⟨"casa", "", ["casa"], none, none⟩ []
        (initState []) = .ok st1
      ∧ st1.docDone.map Entry.id = ["NEW"]
      ∧ st1.created = 1
      ∧ st1.lib = [⟨"casa", "NEW", ["casa"], none, none⟩]
      ∧ st1.saves.length = 1 := by
  obtain ⟨st1, h1, h2, h3, h4, h5, h6⟩ :=
    cache_miss_C4 (fun _ => "NEW") ⟨"casa", "", ["casa"], none, none⟩ []
      (initState []) (Or.inl rfl)
  refine ⟨st1, h1, ?_, ?_, ?_, ?_⟩
  · rw [h2]; rfl
  · rw [h3]; rfl
  · rw [h5 rfl]; rfl
  · rw [h4]; rfl

/-! ## C6: registry mutation on re-encounter -/

/-- C6, counterexample to the claim as stated: on a cache hit (registry id
`"ID1"` non-empty), the registry entry is only variant-unioned; although the
unit supplies `meaning = "new"` and `obs = "nn"`, after the run the registry
entry still holds `meaning = "old"` and `obs = "oo"` — the meaning/obs
refresh of lines 247-248 runs only on the cache-miss path. -/
theorem registry_mutation_C6_counterexample :
    (runEngine (fun _ => "Q") (fun _ _ => true)
        [⟨"m", "", ["v2"], some "new", some "nn"⟩]
        [⟨"m", "ID1", ["v1"], some "old", some "oo"⟩]).toOption.map
        (fun st => st.lib.map (fun l => (l.variants, l.meaning, l.obs)))
      = some [(["v1", "v2"], some "old", some "oo")]
      ∧ (some "new" : Option String) ≠ some "old"
      ∧ (some "nn" : Option String) ≠ some "oo" := by
  refine ⟨?_, by decide, by decide⟩
  simp +decide [runEngine, processEntries, stepUnit, lookupChunk, initState,
    List.mergeSort, union, dedupFirstAux, updateFirst]

/-- C6 (amended): on every encounter of a chunk that already has a registry
entry (and no identifier conflict), the entry's variants are replaced by the
union with the unit's variants; the meaning/obs refresh from the unit's
supplied values happens only on the cache-miss encounters (registry id blank
after trimming, via `refreshEntry`/`applyMeaningObs`), never on cache hits,
whose update function leaves `meaning` and `obs` untouched. -/
theorem registry_mutation_C6 (prov : Nat → String) (e : Entry)
    (todo : List Entry) (st : EngState) (inLib : Entry)
    (hfind : lookupChunk st.lib e.chunk = some inLib)
    (hnc : ¬(inLib.id ≠ "" ∧ e.id ≠ "" ∧ trimStr e.id ≠ "" ∧ e.id ≠ inLib.id)) :
    (trimStr inLib.id ≠ "" → stepUnit prov e todo st = .ok { st with
        docDone := st.docDone ++ [{ e with id := inLib.id }],
        lib := updateFirst (fun l => l.chunk == e.chunk)
          (fun l => { l with variants := union l.variants e.variants }) st.lib,
        skipped := st.skipped ++ [e.chunk] })
      ∧ (trimStr inLib.id = "" → stepUnit prov e todo st = .ok { st with
        docDone := st.docDone ++ [{ e with id := prov st.created }],
        lib := updateFirst (fun l => l.chunk == e.chunk)
          (refreshEntry (prov st.created) e) st.lib,
        created := st.created + 1,
        saves := (st.docDone ++ { e with id := prov st.created } :: todo,
          updateFirst (fun l => l.chunk == e.chunk)
            (refreshEntry (prov st.created) e) st.lib) :: st.saves }) := by
  constructor
  · intro htrim
    exact stepUnit_hit prov e todo st inLib hfind htrim
      (fun h3 => hnc ⟨ne_empty_of_trimStr_ne htrim, h3.1, h3.2.1, h3.2.2⟩)
  · intro htrim
    exact stepUnit_miss_some prov e todo st inLib hfind htrim hnc

theorem registry_mutation_C6_witness :
    stepUnit (fun _ => "Q") ⟨"m", "", ["v2"], some "new", some "nn"⟩ []
        (initState [⟨"m", "ID1", ["v1"], some "old", some "oo"⟩])
      = .ok ⟨[⟨"m", "ID1", ["v2"], some "new", some "nn"⟩],
          [⟨"m", "ID1", ["v1", "v2"], some "old", some "oo"⟩], ["m"], 0, []⟩ :=
  (registry_mutation_C6 (fun _ => "Q") ⟨"m", "", ["v2"], some "new", some "nn"⟩
    [] (initState [⟨"m", "ID1", ["v1"], some "old", some "oo"⟩])
    ⟨"m", "ID1", ["v1"], some "old", some "oo"⟩ rfl (by decide)).1 (by decide)

/-! ## C7: sort postcondition and final persist -/

/-- Destructuring a successful run into the loop's final state and the
post-sort bookkeeping. -/
theorem runEngine_ok (prov : Nat → String) (le : String → String → Bool)
    (docEntries lib0 : List Entry) (r : EngState)
    (h : runEngine prov le docEntries lib0 = .ok r) :
    ∃ st, processEntries prov docEntries (initState lib0) = .ok st
      ∧ r = { st with
          lib := st.lib.mergeSort (fun a b => le a.chunk b.chunk),
          saves := (st.docDone, st.lib.mergeSort (fun a b => le a.chunk b.chunk))
            :: st.saves } := by
  unfold runEngine at h
  cases hp : processEntries prov docEntries (initState lib0) with
  | error c => rw [hp] at h; cases h
  | ok st =>
    rw [hp] at h
    exact ⟨st, rfl, (Except.ok.inj h).symm⟩

/-- C7: after a successful run the registry entries are sorted ascending by
`chunk` under the comparator (for any transitive and total comparator, which
a locale-aware `localeCompare` is), and the most recent persisted snapshot —
written after the sort — holds exactly the final class document and the
sorted registry. -/
theorem sort_postcondition_C7 (prov : Nat → String) (le : String → String → Bool)
    (docEntries lib0 : List Entry) (r : EngState)
    (htrans : ∀ a b c : String, le a b = true → le b c = true → le a c = true)
    (htotal : ∀ a b : String, le a b = true ∨ le b a = true)
    (h : runEngine prov le docEntries lib0 = .ok r) :
    List.Sorted (fun x y : Entry => le x.chunk y.chunk = true) r.lib
      ∧ r.saves.head? = some (r.docDone, r.lib) := by
  obtain ⟨st, hp, hr⟩ := runEngine_ok prov le docEntries lib0 r h
  subst hr
  refine ⟨?_, rfl⟩
  have hs := @List.sorted_mergeSort Entry (fun a b => le a.chunk b.chunk)
    (fun a b c hab hbc => htrans a.chunk b.chunk c.chunk hab hbc)
    (fun a b => by
      rcases htotal a.chunk b.chunk with ht | ht
      · simp [ht]
      · simp [ht])
    st.lib
  exact hs

theorem sort_postcondition_C7_witness :
    List.Sorted
        (fun x y : Entry => (fun _ _ : String => true) x.chunk y.chunk = true)
        [(⟨"a", "", [], none, none⟩ : Entry)]
      ∧ ([(([] : List Entry), [(⟨"a", "", [], none, none⟩ : Entry)])]).head?
        = some (([] : List Entry), [(⟨"a", "", [], none, none⟩ : Entry)]) := by
  have h : runEngine (fun _ => "I") (fun _ _ => true) []
      [⟨"a", "", [], none, none⟩]
      = .ok ⟨[], [⟨"a", "", [], none, none⟩], [], 0,
          [([], [⟨"a", "", [], none, none⟩])]⟩ := by
    simp [runEngine, processEntries, initState, List.mergeSort]
  exact sort_postcondition_C7 (fun _ => "I") (fun _ _ => true) []
    [⟨"a", "", [], none, none⟩] _ (fun _ _ _ _ hbc => hbc)
    (fun _ _ => Or.inl rfl) h

/-! ## Preservation lemmas for the loop state -/

theorem lookupChunk_mem {lib : List Entry} {c : String} {x : Entry}
    (h : lookupChunk lib c = some x) : x ∈ lib ∧ x.chunk = c := by
  refine ⟨List.mem_of_find?_eq_some h, ?_⟩
  have := List.find?_some h
  exact eq_of_beq this

theorem lookupChunk_eq_none {lib : List Entry} {c : String}
    (h : lookupChunk lib c = none) : ∀ x ∈ lib, x.chunk ≠ c := by
  intro x hx
  have := List.find?_eq_none.mp h x hx
  simpa using this

theorem lookupChunk_of_mem_nodup {lib : List Entry} {v : Entry}
    (hnd : (lib.map Entry.chunk).Nodup) (hv : v ∈ lib) :
    lookupChunk lib v.chunk = some v := by
  induction lib with
  | nil => cases hv
  | cons x xs ih =>
    rcases List.mem_cons.mp hv with rfl | hv
    · unfold lookupChunk
      simp [List.find?]
    · have hx : x.chunk ≠ v.chunk := by
        intro hc
        exact (List.nodup_cons.mp (by simpa using hnd)).1
          (hc ▸ List.mem_map_of_mem Entry.chunk hv)
      unfold lookupChunk at ih ⊢
      rw [List.find?]
      have : (x.chunk == v.chunk) = false := by
        simpa using hx
      rw [this]
      exact ih ((List.nodup_cons.mp (by simpa using hnd)).2) hv

theorem updateFirst_mem_of_find {p : Entry → Bool} {f : Entry → Entry}
    {l : List Entry} {x : Entry} (h : l.find? p = some x) :
    f x ∈ updateFirst p f l := by
  induction l with
  | nil => cases h
  | cons y ys ih =>
    unfold updateFirst
    cases hp : p y with
    | true =>
      simp only [List.find?, hp] at h
      simp only [hp, if_pos]
      injection h with h
      subst h
      exact List.mem_cons_self _ _
    | false =>
      simp only [List.find?, hp] at h
      simp only [hp, Bool.false_eq_true, if_neg, not_false_iff]
      exact List.mem_cons_of_mem _ (ih h)

theorem updateFirst_mem_of_mem {p : Entry → Bool} {f : Entry → Entry}
    {l : List Entry} {x v : Entry} (h : l.find? p = some x) (hv : v ∈ l)
    (hne : v ≠ x) : v ∈ updateFirst p f l := by
  induction l with
  | nil => cases h
  | cons y ys ih =>
    unfold updateFirst
    cases hp : p y with
    | true =>
      simp only [List.find?, hp] at h
      injection h with h
      subst h
      simp only [hp, if_pos]
      rcases List.mem_cons.mp hv with rfl | hv
      · exact absurd rfl hne
      · exact List.mem_cons_of_mem _ hv
    | false =>
      simp only [List.find?, hp] at h
      simp only [hp, Bool.false_eq_true, if_neg, not_false_iff]
      rcases List.mem_cons.mp hv with rfl | hv
      · exact List.mem_cons_self _ _
      · exact List.mem_cons_of_mem _ (ih h hv)

theorem updateFirst_map_chunk (p : Entry → Bool) (f : Entry → Entry)
    (hf : ∀ x, (f x).chunk = x.chunk) (l : List Entry) :
    (updateFirst p f l).map Entry.chunk = l.map Entry.chunk := by
  induction l with
  | nil => rfl
  | cons y ys ih =>
    unfold updateFirst
    cases hp : p y with
    | true =>
      simp only [hp, if_pos, List.map_cons, hf y]
    | false =>
      simp only [hp, Bool.false_eq_true, if_neg, not_false_iff, List.map_cons, ih]

theorem refreshEntry_chunk (cardId : String) (e l : Entry) :
    (refreshEntry cardId e l).chunk = l.chunk := by
  unfold refreshEntry applyMeaningObs
  cases e.meaning <;> cases e.obs <;> rfl

theorem refreshEntry_id (cardId : String) (e l : Entry) :
    (refreshEntry cardId e l).id = cardId := by
  unfold refreshEntry applyMeaningObs
  cases e.meaning <;> cases e.obs <;> rfl

theorem refreshEntry_variants (cardId : String) (e l : Entry) :
    (refreshEntry cardId e l).variants = union l.variants e.variants := by
  unfold refreshEntry applyMeaningObs
  cases e.meaning <;> cases e.obs <;> rfl

/-- Inversion of a successful loop iteration: cache hit on an entry with a
non-blank id, cache miss rewriting an existing id-less entry, or cache miss
appending a brand-new entry. -/
theorem stepUnit_ok_cases (prov : Nat → String) (e : Entry) (todo : List Entry)
    (st st1 : EngState) (h : stepUnit prov e todo st = .ok st1) :
    (∃ inLib, lookupChunk st.lib e.chunk = some inLib ∧ trimStr inLib.id ≠ ""
      ∧ st1 = { st with
          docDone := st.docDone ++ [{ e with id := inLib.id }],
          lib := updateFirst (fun l => l.chunk == e.chunk)
            (fun l => { l with variants := union l.variants e.variants }) st.lib,
          skipped := st.skipped ++ [e.chunk] })
    ∨ (∃ inLib, lookupChunk st.lib e.chunk = some inLib ∧ trimStr inLib.id = ""
      ∧ st1 = { st with
          docDone := st.docDone ++ [{ e with id := prov st.created }],
          lib := updateFirst (fun l => l.chunk == e.chunk)
            (refreshEntry (prov st.created) e) st.lib,
          created := st.created + 1,
          saves := (st.docDone ++ { e with id := prov st.created } :: todo,
            updateFirst (fun l => l.chunk == e.chunk)
              (refreshEntry (prov st.created) e) st.lib) :: st.saves })
    ∨ (lookupChunk st.lib e.chunk = none
      ∧ st1 = { st with
          docDone := st.docDone ++ [{ e with id := prov st.created }],
          lib := st.lib ++ [refreshEntry (prov st.created) e (freshLibEntry e.chunk)],
          created := st.created + 1,
          saves := (st.docDone ++ { e with id := prov st.created } :: todo,
            st.lib ++ [refreshEntry (prov st.created) e (freshLibEntry e.chunk)])
              :: st.saves }) := by
  cases hl : lookupChunk st.lib e.chunk with
  | none =>
    right; right
    rw [stepUnit_miss_none prov e todo st hl] at h
    exact ⟨rfl, (Except.ok.inj h).symm⟩
  | some inLib =>
    by_cases hc : inLib.id ≠ "" ∧ e.id ≠ "" ∧ trimStr e.id ≠ "" ∧ e.id ≠ inLib.id
    · rw [stepUnit_conflict prov e todo st inLib hl hc.1 hc.2.1 hc.2.2.1 hc.2.2.2] at h
      cases h
    · by_cases ht : trimStr inLib.id ≠ ""
      · left
        rw [stepUnit_hit prov e todo st inLib hl ht
          (fun h3 => hc ⟨ne_empty_of_trimStr_ne ht, h3.1, h3.2.1, h3.2.2⟩)] at h
        exact ⟨inLib, rfl, ht, (Except.ok.inj h).symm⟩
      · right; left
        have ht0 : trimStr inLib.id = "" := not_ne_iff.mp ht
        rw [stepUnit_miss_some prov e todo st inLib hl ht0 hc] at h
        exact ⟨inLib, rfl, ht0, (Except.ok.inj h).symm⟩

/-- Chunk keys of the library after one successful iteration: unchanged, or
extended by the fresh chunk when it was absent. -/
theorem stepUnit_ok_chunks (prov : Nat → String) (e : Entry) (todo : List Entry)
    (st st1 : EngState) (h : stepUnit prov e todo st = .ok st1) :
    st1.lib.map Entry.chunk = st.lib.map Entry.chunk
      ∨ (st1.lib.map Entry.chunk = st.lib.map Entry.chunk ++ [e.chunk]
          ∧ e.chunk ∉ st.lib.map Entry.chunk) := by
  rcases stepUnit_ok_cases prov e todo st st1 h with
    ⟨inLib, hl, ht, rfl⟩ | ⟨inLib, hl, ht, rfl⟩ | ⟨hl, rfl⟩
  · exact Or.inl (updateFirst_map_chunk (fun l => l.chunk == e.chunk)
      (fun l => { l with variants := union l.variants e.variants })
      (fun x => rfl) st.lib)
  · exact Or.inl (updateFirst_map_chunk (fun l => l.chunk == e.chunk)
      (refreshEntry (prov st.created) e)
      (fun x => refreshEntry_chunk _ e x) st.lib)
  · refine Or.inr ⟨?_, ?_⟩
    · simp [refreshEntry_chunk, freshLibEntry]
    · intro hmem
      rcases List.mem_map.mp hmem with ⟨x, hx, hcx⟩
      exact lookupChunk_eq_none hl x hx hcx

/-- A library entry whose id is non-blank after trimming survives one
iteration with its chunk and id intact. -/
theorem stepUnit_ok_preserves_id (prov : Nat → String) (e : Entry)
    (todo : List Entry) (st st1 : EngState) (v : Entry)
    (h : stepUnit prov e todo st = .ok st1) (hv : v ∈ st.lib)
    (htrim : trimStr v.id ≠ "") :
    ∃ w ∈ st1.lib, w.chunk = v.chunk ∧ w.id = v.id := by
  rcases stepUnit_ok_cases prov e todo st st1 h with
    ⟨inLib, hl, ht, rfl⟩ | ⟨inLib, hl, ht, rfl⟩ | ⟨hl, rfl⟩
  · by_cases hve : v = inLib
    · subst hve
      exact ⟨_, updateFirst_mem_of_find hl, rfl, rfl⟩
    · exact ⟨v, updateFirst_mem_of_mem hl hv hve, rfl, rfl⟩
  · have hve : v ≠ inLib := fun hh => htrim (hh ▸ ht)
    exact ⟨v, updateFirst_mem_of_mem hl hv hve, rfl, rfl⟩
  · exact ⟨v, List.mem_append_left _ hv, rfl, rfl⟩

/-- Lifting of `stepUnit_ok_preserves_id` over the whole loop. -/
theorem processEntries_preserves_id (prov : Nat → String)
    (entries : List Entry) (st st1 : EngState) (v : Entry)
    (h : processEntries prov entries st = .ok st1) (hv : v ∈ st.lib)
    (htrim : trimStr v.id ≠ "") :
    ∃ w ∈ st1.lib, w.chunk = v.chunk ∧ w.id = v.id := by
  induction entries generalizing st v with
  | nil =>
    simp only [processEntries] at h
    exact ⟨v, (Except.ok.inj h) ▸ hv, rfl, rfl⟩
  | cons e todo ih =>
    simp only [processEntries] at h
    cases hs : stepUnit prov e todo st with
    | error c => rw [hs] at h; cases h
    | ok st2 =>
      rw [hs] at h
      obtain ⟨w, hw, hwc, hwi⟩ := stepUnit_ok_preserves_id prov e todo st st2 v hs hv htrim
      obtain ⟨w2, hw2, hw2c, hw2i⟩ := ih st2 w h hw (hwi ▸ htrim)
      exact ⟨w2, hw2, hw2c.trans hwc, hw2i.trans hwi⟩

/-! ## C5: immutability of assigned registry identifiers -/

/-- C5, counterexample to the claim as stated: the registry entry for chunk
`"c"` starts the run with the non-empty id `" "`, and the engine changes it:
`" "` fails the `inLib.id.trim()` test of line 230, so the unit is treated as
a cache miss and line 243 overwrites the registry id with the freshly
provisioned `"NEW1"`. -/
theorem registry_id_immutable_C5_counterexample :
    (runEngine (fun _ => "NEW1") (fun _ _ => true)
        [⟨"c", "", [], none, none⟩] [⟨"c", " ", [], none, none⟩]).toOption.map
        (fun st => st.lib.map (fun l => (l.chunk, l.id)))
      = some [("c", "NEW1")]
      ∧ (" " : String) ≠ "" ∧ ("NEW1" : String) ≠ " " := by
  refine ⟨?_, by decide, by decide⟩
  simp +decide [runEngine, processEntries, stepUnit, lookupChunk, initState,
    List.mergeSort, union, dedupFirstAux, updateFirst, refreshEntry,
    applyMeaningObs]

/-- C5 (amended): once a registry entry's id is non-empty after trimming, no
operation of a (successful) run changes it: the final registry still contains
an entry with the same chunk and the same id.  (For ids that are non-empty
but blank after trimming the original claim fails, see the counterexample:
the cache-miss path overwrites them.) -/
theorem registry_id_immutable_C5 (prov : Nat → String)
    (le : String → String → Bool) (docEntries lib0 : List Entry) (r : EngState)
    (v : Entry) (h : runEngine prov le docEntries lib0 = .ok r)
    (hv : v ∈ lib0) (htrim : trimStr v.id ≠ "") :
    ∃ w ∈ r.lib, w.chunk = v.chunk ∧ w.id = v.id := by
  obtain ⟨st, hp, hr⟩ := runEngine_ok prov le docEntries lib0 r h
  obtain ⟨w, hw, hwc, hwi⟩ :=
    processEntries_preserves_id prov docEntries (initState lib0) st v hp hv htrim
  subst hr
  exact ⟨w, List.mem_mergeSort.mpr hw, hwc, hwi⟩

theorem registry_id_immutable_C5_witness :
    ∃ w ∈ [(⟨"casa", "K7", ["a", "b"], none, none⟩ : Entry)],
      w.chunk = "casa" ∧ w.id = "K7" := by
  have h : runEngine (fun _ => "Z") (fun _ _ => true)
      [⟨"casa", "", ["b"], none, none⟩] [⟨"casa", "K7", ["a"], none, none⟩]
      = .ok ⟨[⟨"casa", "K7", ["b"], none, none⟩],
          [⟨"casa", "K7", ["a", "b"], none, none⟩], ["casa"], 0,
          [([⟨"casa", "K7", ["b"], none, none⟩],
            [⟨"casa", "K7", ["a", "b"], none, none⟩])]⟩ := by
    simp +decide [runEngine, processEntries, stepUnit, lookupChunk, initState,
      List.mergeSort, union, dedupFirstAux, updateFirst]
  exact registry_id_immutable_C5 (fun _ => "Z") (fun _ _ => true)
    [⟨"casa", "", ["b"], none, none⟩] [⟨"casa", "K7", ["a"], none, none⟩] _
    ⟨"casa", "K7", ["a"], none, none⟩ h (by decide) (by decide)

/-! ## C2: idempotence of reruns -/

/-- Every processed unit has a trim-non-blank id and a registry entry with
its chunk carrying exactly that id. -/
def GoodDoc (st : EngState) : Prop :=
  ∀ e ∈ st.docDone,
    trimStr e.id ≠ "" ∧ ∃ w ∈ st.lib, w.chunk = e.chunk ∧ w.id = e.id

theorem stepUnit_ok_gooddoc (prov : Nat → String) (e : Entry)
    (todo : List Entry) (st st1 : EngState)
    (hprov : ∀ n, trimStr (prov n) ≠ "")
    (h : stepUnit prov e todo st = .ok st1) (hg : GoodDoc st) : GoodDoc st1 := by
  have hold : ∀ x ∈ st.docDone,
      trimStr x.id ≠ "" ∧ ∃ w ∈ st1.lib, w.chunk = x.chunk ∧ w.id = x.id := by
    intro x hx
    obtain ⟨htrim, w, hw, hwc, hwi⟩ := hg x hx
    obtain ⟨w1, hw1, hw1c, hw1i⟩ := stepUnit_ok_preserves_id prov e todo st st1 w h hw
      (by rw [hwi]; exact htrim)
    exact ⟨htrim, w1, hw1, hw1c.trans hwc, hw1i.trans hwi⟩
  rcases stepUnit_ok_cases prov e todo st st1 h with
    ⟨inLib, hl, ht, rfl⟩ | ⟨inLib, hl, ht, rfl⟩ | ⟨hl, rfl⟩
  · intro x hx
    rcases List.mem_append.mp hx with hx | hx
    · exact hold x hx
    · rcases List.mem_singleton.mp hx with rfl
      refine ⟨ht, _, updateFirst_mem_of_find hl, ?_, rfl⟩
      exact (lookupChunk_mem hl).2
  · intro x hx
    rcases List.mem_append.mp hx with hx | hx
    · exact hold x hx
    · rcases List.mem_singleton.mp hx with rfl
      refine ⟨hprov st.created, _, updateFirst_mem_of_find hl, ?_, ?_⟩
      · exact (refreshEntry_chunk _ e inLib).trans (lookupChunk_mem hl).2
      · exact refreshEntry_id _ e inLib
  · intro x hx
    rcases List.mem_append.mp hx with hx | hx
    · exact hold x hx
    · rcases List.mem_singleton.mp hx with rfl
      refine ⟨hprov st.created, _,
        List.mem_append_right _ (List.mem_singleton_self _), ?_, ?_⟩
      · exact (refreshEntry_chunk _ e _).trans rfl
      · exact refreshEntry_id _ e _

theorem stepUnit_ok_nodup (prov : Nat → String) (e : Entry) (todo : List Entry)
    (st st1 : EngState) (h : stepUnit prov e todo st = .ok st1)
    (hnd : (st.lib.map Entry.chunk).Nodup) : (st1.lib.map Entry.chunk).Nodup := by
  rcases stepUnit_ok_chunks prov e todo st st1 h with heq | ⟨heq, hnot⟩
  · rw [heq]; exact hnd
  · rw [heq]
    simp [List.nodup_append, hnd, hnot]

theorem processEntries_ok_gooddoc (prov : Nat → String) (entries : List Entry)
    (st st1 : EngState) (hprov : ∀ n, trimStr (prov n) ≠ "")
    (h : processEntries prov entries st = .ok st1) (hg : GoodDoc st) :
    GoodDoc st1 := by
  induction entries generalizing st with
  | nil =>
    simp only [processEntries] at h
    exact (Except.ok.inj h) ▸ hg
  | cons e todo ih =>
    simp only [processEntries] at h
    cases hs : stepUnit prov e todo st with
    | error c => rw [hs] at h; cases h
    | ok st2 =>
      rw [hs] at h
      exact ih st2 h (stepUnit_ok_gooddoc prov e todo st st2 hprov hs hg)

theorem processEntries_ok_nodup (prov : Nat → String) (entries : List Entry)
    (st st1 : EngState) (h : processEntries prov entries st = .ok st1)
    (hnd : (st.lib.map Entry.chunk).Nodup) : (st1.lib.map Entry.chunk).Nodup := by
  induction entries generalizing st with
  | nil =>
    simp only [processEntries] at h
    exact (Except.ok.inj h) ▸ hnd
  | cons e todo ih =>
    simp only [processEntries] at h
    cases hs : stepUnit prov e todo st with
    | error c => rw [hs] at h; cases h
    | ok st2 =>
      rw [hs] at h
      exact ih st2 h (stepUnit_ok_nodup prov e todo st st2 hs hnd)

/-- Rerunning the loop on units that all already have their (trim-non-blank)
registry id takes the cache-hit path everywhere: it succeeds, changes no
unit, and creates nothing. -/
theorem processEntries_rerun (prov2 : Nat → String) (es : List Entry)
    (st : EngState) (hnd : (st.lib.map Entry.chunk).Nodup)
    (hes : ∀ e ∈ es,
      trimStr e.id ≠ "" ∧ ∃ w ∈ st.lib, w.chunk = e.chunk ∧ w.id = e.id) :
    ∃ st1, processEntries prov2 es st = .ok st1
      ∧ st1.docDone = st.docDone ++ es ∧ st1.created = st.created := by
  induction es generalizing st with
  | nil => exact ⟨st, rfl, (List.append_nil _).symm, rfl⟩
  | cons e todo ih =>
    obtain ⟨htrim, w, hw, hwc, hwi⟩ := hes e (List.mem_cons_self _ _)
    have hl : lookupChunk st.lib e.chunk = some w := by
      rw [← hwc]
      exact lookupChunk_of_mem_nodup hnd hw
    have hstep := stepUnit_hit prov2 e todo st w hl
      (by rw [hwi]; exact htrim) (fun h3 => h3.2.2 hwi.symm)
    have heta : { e with id := w.id } = e := by rw [hwi]
    rw [heta] at hstep
    have hnd2 : ((updateFirst (fun l => l.chunk == e.chunk)
        (fun l => { l with variants := union l.variants e.variants })
        st.lib).map Entry.chunk).Nodup := by
      rw [updateFirst_map_chunk (fun l => l.chunk == e.chunk)
        (fun l => { l with variants := union l.variants e.variants })
        (fun x => rfl) st.lib]
      exact hnd
    have hes2 : ∀ e2 ∈ todo,
        trimStr e2.id ≠ "" ∧ ∃ w2 ∈ (updateFirst (fun l => l.chunk == e.chunk)
          (fun l => { l with variants := union l.variants e.variants }) st.lib),
          w2.chunk = e2.chunk ∧ w2.id = e2.id := by
      intro e2 he2
      obtain ⟨htrim2, w2, hw2, hw2c, hw2i⟩ := hes e2 (List.mem_cons_of_mem _ he2)
      obtain ⟨w3, hw3, hw3c, hw3i⟩ := stepUnit_ok_preserves_id prov2 e todo st _ w2
        hstep hw2 (by rw [hw2i]; exact htrim2)
      exact ⟨htrim2, w3, hw3, hw3c.trans hw2c, hw3i.trans hw2i⟩
    obtain ⟨st1, hp1, hd1, hc1⟩ := ih { st with
        docDone := st.docDone ++ [e],
        lib := updateFirst (fun l => l.chunk == e.chunk)
          (fun l => { l with variants := union l.variants e.variants }) st.lib,
        skipped := st.skipped ++ [e.chunk] } hnd2 hes2
    refine ⟨st1, ?_, ?_, hc1⟩
    · simp only [processEntries, hstep]
      exact hp1
    · rw [hd1]
      simp

/-- C2: rerunning the engine on the outputs of a successful run (same
comparator, any provisioner oracle for the second run since no external state
changed) creates zero new external resources and leaves the class document —
in particular every unit's identifier assignment — identical.  Hypotheses:
the initial registry chunks are pairwise distinct (guaranteed by
`validateLibrary`) and the provisioner returns trim-non-blank identifiers. -/
theorem idempotent_rerun_C2 (prov prov2 : Nat → String)
    (le : String → String → Bool) (docEntries lib0 : List Entry)
    (r1 : EngState)
    (hprov : ∀ n, trimStr (prov n) ≠ "")
    (hlib : (lib0.map Entry.chunk).Nodup)
    (h1 : runEngine prov le docEntries lib0 = .ok r1) :
    ∃ r2, runEngine prov2 le r1.docDone r1.lib = .ok r2
      ∧ r2.created = 0
      ∧ r2.docDone = r1.docDone
      ∧ r2.docDone.map Entry.id = r1.docDone.map Entry.id := by
  obtain ⟨st, hp, hr⟩ := runEngine_ok prov le docEntries lib0 r1 h1
  have hg : GoodDoc st := processEntries_ok_gooddoc prov docEntries _ st hprov hp
    (fun x hx => absurd hx (List.not_mem_nil x))
  have hnd : (st.lib.map Entry.chunk).Nodup :=
    processEntries_ok_nodup prov docEntries _ st hp hlib
  subst hr
  set L := st.lib.mergeSort (fun a b : Entry => le a.chunk b.chunk) with hL
  have hperm : List.Perm L st.lib := List.mergeSort_perm st.lib _
  have hnd1 : (L.map Entry.chunk).Nodup :=
    (List.Perm.nodup_iff (List.Perm.map Entry.chunk hperm)).mpr hnd
  have hes : ∀ e ∈ st.docDone,
      trimStr e.id ≠ "" ∧ ∃ w ∈ L, w.chunk = e.chunk ∧ w.id = e.id := by
    intro e he
    obtain ⟨htrim, w, hw, hwc, hwi⟩ := hg e he
    refine ⟨htrim, w, ?_, hwc, hwi⟩
    rw [hL]
    exact List.mem_mergeSort.mpr hw
  obtain ⟨st2, hp2, hd2, hc2⟩ := processEntries_rerun prov2 st.docDone
    (initState L) hnd1 hes
  have hrun2 : runEngine prov2 le st.docDone L
      = .ok { st2 with
          lib := st2.lib.mergeSort (fun a b : Entry => le a.chunk b.chunk),
          saves := (st2.docDone,
            st2.lib.mergeSort (fun a b : Entry => le a.chunk b.chunk))
              :: st2.saves } := by
    unfold runEngine
    rw [hp2]
  have hdoc2 : st2.docDone = st.docDone := by
    rw [hd2]
    simp [initState]
  have hcre2 : st2.created = 0 := by
    rw [hc2]
    rfl
  refine ⟨_, hrun2, hcre2, hdoc2, ?_⟩
  rw [show ({ st2 with
      lib := st2.lib.mergeSort (fun a b : Entry => le a.chunk b.chunk),
      saves := (st2.docDone,
        st2.lib.mergeSort (fun a b : Entry => le a.chunk b.chunk))
          :: st2.saves } : EngState).docDone = st2.docDone from rfl, hdoc2]

theorem trimStr_ID1_ne : trimStr "ID1" ≠ "" := by decide

theorem idempotent_rerun_C2_witness :
    ∃ r2, runEngine (fun _ => "ID2") (fun _ _ => true)
        [⟨"casa", "ID1", ["casa"], none, none⟩]
        [⟨"casa", "ID1", ["casa"], none, none⟩] = .ok r2
      ∧ r2.created = 0
      ∧ r2.docDone = [⟨"casa", "ID1", ["casa"], none, none⟩]
      ∧ r2.docDone.map Entry.id = ["ID1"] := by
  have h1 : runEngine (fun _ => "ID1") (fun _ _ => true)
      [⟨"casa", "", ["casa"], none, none⟩] ([] : List Entry)
      = .ok ⟨[⟨"casa", "ID1", ["casa"], none, none⟩],
          [⟨"casa", "ID1", ["casa"], none, none⟩], [], 1,
          [([⟨"casa", "ID1", ["casa"], none, none⟩],
            [⟨"casa", "ID1", ["casa"], none, none⟩]),
           ([⟨"casa", "ID1", ["casa"], none, none⟩],
            [⟨"casa", "ID1", ["casa"], none, none⟩])]⟩ := by
    simp +decide [runEngine, processEntries, stepUnit, lookupChunk, initState,
      List.mergeSort, union, dedupFirstAux, refreshEntry, applyMeaningObs,
      freshLibEntry]
  exact idempotent_rerun_C2 (fun _ => "ID1") (fun _ => "ID2")
    (fun _ _ => true) [⟨"casa", "", ["casa"], none, none⟩] [] _
    (fun n => trimStr_ID1_ne) List.nodup_nil h1

/-! ## The persisted-document layer: JSON values and the two validators -/

/-- JSON values as parsed by `loadJson` (`JSON.parse`). -/
inductive Json where
  | null
  | bool (b : Bool)
  | num (n : Int)
  | str (s : String)
  | arr (elems : List Json)
  | obj (fields : List (String × Json))

/-- JS member access `v.k` on a parsed value: a field of an object, otherwise
`undefined` (modelled as `none`). -/
def jget : Json → String → Option Json
  | .obj fields, k => (fields.find? (fun p => p.1 == k)).map (fun p => p.2)
  | _, _ => none

/-- Variant array elements are taken as strings; the spec's data model fixes
variants to be strings, so non-string members are modelled as the falsy `""`
(which `union` filters out). -/
def jsonVariantString : Json → String
  | .str s => s
  | _ => ""

/-- An optional string field: absent or `null` is accepted as missing, a
string is kept, anything else is the given validation error
(`e.obs != null && typeof e.obs !== "string"`). -/
def optStringField (j : Json) (k : String) (errMsg : String) :
    Except String (Option String) :=
  match jget j k with
  | none => .ok none
  | some .null => .ok none
  | some (.str s) => .ok (some s)
  | some _ => .error errMsg

/-- Lines 100-104: per-entry checks of `validateClassDoc`, in source order:
`chunk` a non-empty string, `id` a string, `variants` an array, `obs` and
`meaning` strings when present. -/
def validateEntry (i : Nat) (e : Json) : Except String Entry :=
  match jget e "chunk" with
  | some (.str c) =>
    if c = "" then .error ("entries[" ++ toString i ++ "].chunk missing/invalid")
    else
      match jget e "id" with
      | some (.str idv) =>
        match jget e "variants" with
        | some (.arr vs) =>
          match optStringField e "obs"
              ("entries[" ++ toString i ++ "].obs must be a string if present") with
          | .error m => .error m
          | .ok o =>
            match optStringField e "meaning"
                ("entries[" ++ toString i
                  ++ "].meaning must be a string if present") with
            | .error m => .error m
            | .ok mng => .ok ⟨c, idv, vs.map jsonVariantString, mng, o⟩
        | _ => .error ("entries[" ++ toString i ++ "].variants must be an array")
      | _ => .error ("entries[" ++ toString i
          ++ "].id must be a string (use \"\" if empty)")
  | _ => .error ("entries[" ++ toString i ++ "].chunk missing/invalid")

/-- Lines 98-109: the per-entry loop of `validateClassDoc`, with the
`seen`-set duplicate check on trimmed chunks. -/
def validateEntries (i : Nat) (seen : List String) :
    List Json → Except String (List Entry)
  | [] => .ok []
  | e :: rest =>
    match validateEntry i e with
    | .error m => .error m
    | .ok ent =>
      if seen.contains (trimStr ent.chunk) then
        .error ("Duplicate chunk in class JSON: \"" ++ trimStr ent.chunk ++ "\"")
      else
        match validateEntries (i + 1) (trimStr ent.chunk :: seen) rest with
        | .error m => .error m
        | .ok rest2 => .ok (ent :: rest2)

/-- The class document `{ class, entries }`; the JS field is named `class`,
a Lean keyword, hence `className`. -/
structure ClassDoc where
  className : String
  entries : List Entry

/-- Lines 93-110: `validateClassDoc`.  A JS array passes the
`typeof doc === "object"` test but its `class` member is not a string, so it
fails with the missing-class error. -/
def validateClassDoc (j : Json) : Except String ClassDoc :=
  match j with
  | .obj fields =>
    match jget (Json.obj fields) "class" with
    | some (.str c) =>
      if c = "" then .error ("Missing \"class\" string.")
      else
        match jget (Json.obj fields) "entries" with
        | some (.arr es) =>
          match validateEntries 0 [] es with
          | .error m => .error m
          | .ok ents => .ok ⟨c, ents⟩
        | _ => .error ("Missing \"entries\" array.")
    | _ => .error ("Missing \"class\" string.")
  | .arr _ => .error ("Missing \"class\" string.")
  | _ => .error ("Class JSON is not an object.")

/-- The registry `{ version, entries }`.  The code passes `version` through
untouched, so it stays a raw JSON value. -/
structure Library where
  version : Json
  entries : List Entry

/-- Lines 112-114: `emptyLibrary()` is `{ version: 1, entries: [] }`. -/
def emptyLibrary : Library :=
  ⟨.num 1, []⟩

/-- `meaning`/`obs` on library entries are not validated by the code; the
typed model keeps them when they are strings. -/
def libOptString (j : Json) (k : String) : Option String :=
  match jget j k with
  | some (.str s) => some s
  | _ => none

/-- Lines 122-124: per-entry checks of `validateLibrary` (no meaning/obs
checks there). -/
def validateLibEntry (i : Nat) (e : Json) : Except String Entry :=
  match jget e "chunk" with
  | some (.str c) =>
    if c = "" then
      .error ("Library entries[" ++ toString i ++ "].chunk missing/invalid")
    else
      match jget e "id" with
      | some (.str idv) =>
        match jget e "variants" with
        | some (.arr vs) =>
          .ok ⟨c, idv, vs.map jsonVariantString, libOptString e "meaning",
            libOptString e "obs"⟩
        | _ => .error ("Library entries[" ++ toString i
            ++ "].variants must be an array")
      | _ => .error ("Library entries[" ++ toString i
          ++ "].id must be a string (use \"\" if empty)")
  | _ => .error ("Library entries[" ++ toString i ++ "].chunk missing/invalid")

/-- Lines 120-128: the per-entry loop of `validateLibrary` with the trimmed
duplicate check. -/
def validateLibEntries (i : Nat) (seen : List String) :
    List Json → Except String (List Entry)
  | [] => .ok []
  | e :: rest =>
    match validateLibEntry i e with
    | .error m => .error m
    | .ok ent =>
      if seen.contains (trimStr ent.chunk) then
        .error ("Duplicate chunk in library: \"" ++ trimStr ent.chunk ++ "\"")
      else
        match validateLibEntries (i + 1) (trimStr ent.chunk :: seen) rest with
        | .error m => .error m
        | .ok rest2 => .ok (ent :: rest2)

/-- Lines 116-130: `validateLibrary` returns the empty registry when the
value is not a truthy object or `entries` is not an array (a JS array's
`entries` member is the built-in method, not an array), and throws on
malformed entries. -/
def validateLibrary (j : Json) : Except String Library :=
  match j with
  | .obj fields =>
    match jget (Json.obj fields) "entries" with
    | some (.arr es) =>
      match validateLibEntries 0 [] es with
      | .error m => .error m
      | .ok ents => .ok ⟨(jget (Json.obj fields) "version").getD .null, ents⟩
    | _ => .ok emptyLibrary
  | _ => .ok emptyLibrary

/-- Lines 188-193 of `main`: `try { lib = validateLibrary(await loadJson(libPath)) }
catch { lib = emptyLibrary() }` — a missing/unparsable file (`none`) or any
validation throw falls back to the empty registry. -/
def loadLib : Option Json → Library
  | none => emptyLibrary
  | some j =>
    match validateLibrary j with
    | .ok lib => lib
    | .error _ => emptyLibrary

/-- The failure modes of `main`: class file unreadable, class document
malformed, or an identifier conflict during the loop. -/
inductive RunError where
  | loadClassFailed
  | validationError (msg : String)
  | conflictError (c : ConflictError)
deriving Repr, DecidableEq

/-- `main` (lines 176-280): read and validate the class document (fatal on
failure), load the registry with fallback, then run the reconciliation loop
and the final sort.  Deck resolution only feeds the provisioner oracle and
console output is ignored. -/
def mainRun (prov : Nat → String) (le : String → String → Bool)
    (classJson : Option Json) (libJson : Option Json) :
    Except RunError EngState :=
  match classJson with
  | none => .error .loadClassFailed
  | some cj =>
    match validateClassDoc cj with
    | .error m => .error (.validationError m)
    | .ok doc =>
      match runEngine prov le doc.entries (loadLib libJson).entries with
      | .error c => .error (.conflictError c)
      | .ok st => .ok st

/-! ## C9: registry fallback vs. fatal class validation -/

/-- C9: when the registry's backing store is missing (`none`) or its content
fails validation, loading yields the empty registry (`version 1`, no entries)
instead of failing the run; the class document is never substituted — a
malformed class document makes `mainRun` fail with the validation error
before any engine step or persisted snapshot. -/
theorem library_fallback_C9 :
    emptyLibrary = ⟨Json.num 1, []⟩
      ∧ loadLib none = emptyLibrary
      ∧ (∀ (j : Json) (msg : String),
          validateLibrary j = .error msg → loadLib (some j) = emptyLibrary)
      ∧ (∀ (prov : Nat → String) (le : String → String → Bool) (cj : Json)
          (libJson : Option Json) (msg : String),
          validateClassDoc cj = .error msg →
          mainRun prov le (some cj) libJson = .error (.validationError msg)) := by
  refine ⟨rfl, rfl, ?_, ?_⟩
  · intro j msg h
    simp only [loadLib, h]
  · intro prov le cj libJson msg h
    simp only [mainRun, h]

theorem library_fallback_C9_witness :
    loadLib (some (Json.obj [("entries", Json.arr [Json.obj []])])) = emptyLibrary
      ∧ mainRun (fun _ => "X") (fun _ _ => true) (some (Json.num 0)) none
        = .error (.validationError "Class JSON is not an object.") :=
  ⟨library_fallback_C9.2.2.1 (Json.obj [("entries", Json.arr [Json.obj []])])
      "Library entries[0].chunk missing/invalid" rfl,
    library_fallback_C9.2.2.2 (fun _ => "X") (fun _ _ => true) (Json.num 0)
      none "Class JSON is not an object." rfl⟩

/-! ## C10: trimmed duplicate check vs. raw reconciliation key -/

theorem validateEntries_ok_pairwise (es : List Json) (i : Nat)
    (seen : List String) (ents : List Entry)
    (h : validateEntries i seen es = .ok ents) :
    List.Pairwise (fun a b : Entry => trimStr a.chunk ≠ trimStr b.chunk) ents
      ∧ ∀ x ∈ ents, trimStr x.chunk ∉ seen := by
  induction es generalizing i seen ents with
  | nil =>
    simp only [validateEntries] at h
    cases h
    exact ⟨List.Pairwise.nil, fun x hx => absurd hx (List.not_mem_nil x)⟩
  | cons e rest ih =>
    simp only [validateEntries] at h
    cases hve : validateEntry i e with
    | error m => simp only [hve] at h; cases h
    | ok ent =>
      simp only [hve] at h
      cases hc : seen.contains (trimStr ent.chunk) with
      | true =>
        simp only [hc, if_true] at h
        cases h
      | false =>
        simp only [hc, Bool.false_eq_true, if_false] at h
        cases hrest : validateEntries (i + 1) (trimStr ent.chunk :: seen) rest with
        | error m => simp only [hrest] at h; cases h
        | ok rest2 =>
          simp only [hrest] at h
          cases h
          obtain ⟨hpw, hseen⟩ := ih (i + 1) (trimStr ent.chunk :: seen) rest2 hrest
          refine ⟨List.Pairwise.cons ?_ hpw, ?_⟩
          · intro b hb heq
            exact hseen b hb (heq ▸ List.mem_cons_self _ _)
          · intro x hx
            rcases List.mem_cons.mp hx with rfl | hx
            · intro hmem
              have : seen.contains (trimStr x.chunk) = true := by
                simpa [List.contains] using hmem
              rw [this] at hc
              cases hc
            · intro hmem
              exact hseen x hx (List.mem_cons_of_mem _ hmem)

/-- C10: duplicate-chunk validation compares trimmed chunks — any class
document accepted by `validateClassDoc` has pairwise-distinct trimmed chunks,
so a document with two raw-different but trim-equal chunks is rejected —
while the reconciliation lookup keys the registry by the raw untrimmed
chunk: a unit whose raw chunk matches no registry chunk (even when a
trim-equal one exists) is processed as a cache miss and provisioned. -/
theorem trim_key_mismatch_C10 :
    (∀ (j : Json) (doc : ClassDoc), validateClassDoc j = .ok doc →
        List.Pairwise (fun a b : Entry => trimStr a.chunk ≠ trimStr b.chunk)
          doc.entries)
      ∧ (∀ (prov : Nat → String) (e : Entry) (st : EngState),
          (∀ l ∈ st.lib, l.chunk ≠ e.chunk) →
          ∃ st1, processEntries prov [e] st = .ok st1
            ∧ st1.created = st.created + 1) := by
  constructor
  · intro j doc h
    cases j with
    | obj fields =>
      simp only [validateClassDoc] at h
      split at h <;> try cases h
      split at h <;> try cases h
      split at h <;> try cases h
      split at h <;> try cases h
      exact (validateEntries_ok_pairwise _ 0 [] _ (by assumption)).1
    | arr xs => simp [validateClassDoc] at h
    | null => simp [validateClassDoc] at h
    | bool b => simp [validateClassDoc] at h
    | num n => simp [validateClassDoc] at h
    | str s => simp [validateClassDoc] at h
  · intro prov e st hraw
    have hl : lookupChunk st.lib e.chunk = none := by
      unfold lookupChunk
      rw [List.find?_eq_none]
      intro x hx
      simpa using hraw x hx
    refine ⟨{ st with
        docDone := st.docDone ++ [{ e with id := prov st.created }],
        lib := st.lib ++ [refreshEntry (prov st.created) e (freshLibEntry e.chunk)],
        created := st.created + 1,
        saves := (st.docDone ++ [{ e with id := prov st.created }],
          st.lib ++ [refreshEntry (prov st.created) e (freshLibEntry e.chunk)])
            :: st.saves }, ?_, rfl⟩
    simp only [processEntries, stepUnit_miss_none prov e [] st hl]

theorem trim_key_mismatch_C10_witness :
    List.Pairwise (fun a b : Entry => trimStr a.chunk ≠ trimStr b.chunk)
        [(⟨"casa", "", ["v"], none, none⟩ : Entry)]
      ∧ ∃ st1, processEntries (fun _ => "NEW")
          [⟨"casa ", "", [], none, none⟩]
          (initState [⟨"casa", "OLD", [], none, none⟩]) = .ok st1
        ∧ st1.created = (initState [⟨"casa", "OLD", [], none, none⟩]).created + 1 := by
  constructor
  · exact trim_key_mismatch_C10.1
      (Json.obj [("class", Json.str "001"),
        ("entries", Json.arr [Json.obj [("chunk", Json.str "casa"),
          ("id", Json.str ""), ("variants", Json.arr [Json.str "v"])]])])
      ⟨"001", [⟨"casa", "", ["v"], none, none⟩]⟩ rfl
  · exact trim_key_mismatch_C10.2 (fun _ => "NEW")
      ⟨"casa ", "", [], none, none⟩
      (initState [⟨"casa", "OLD", [], none, none⟩]) (by decide)
